import Mathlib

/-
Shallow embedding of the tmm session manager (src/app.rs, src/handler.rs,
src/ui.rs).  Pure functions mirror the Rust code; the external tmux process
is modelled as an environment value supplying the outcome of each call, and
Rust panics are modelled as `Except.error`.  usize arithmetic that can wrap
is modelled with explicit arithmetic modulo 2 ^ 64 (release-profile
semantics); places where a debug build would abort on overflow are noted in
comments.
-/

namespace Tmm

/-- Width of usize: all index arithmetic in the source is on usize. -/
def U64 : Nat := 2 ^ 64

/-- Release-profile usize `n - 1`: wraps to `2 ^ 64 - 1` when `n = 0`
(a debug build panics there with an overflow abort). -/
def wSub1 (n : Nat) : Nat := if n = 0 then U64 - 1 else n - 1

/-- Release-profile usize `n + 1`. -/
def wAdd1 (n : Nat) : Nat := (n + 1) % U64

/-- A tmux session as stored in `App.sessions`: `(name, desc)`. -/
structure Session where
  name : String
  desc : String
deriving DecidableEq

/-- The `AppState` enum of src/app.rs. -/
inductive AppState where
  | Sessions
  | SessionsSearch
  | Deleting
  | Renaming
  | WarnNested
  | NewSession
deriving DecidableEq

/-- The `ExitAction` enum of src/app.rs. -/
inductive ExitAction where
  | attachSession (name : String) (detachOthers : Bool)
  | newSession
  | none
deriving DecidableEq

/-- The `App` struct of src/app.rs.  Text areas are modelled by their single
line of content (`Option String`); the render-only hotkey legend map is
omitted. -/
structure App where
  running : Bool
  counter : Nat
  onExit : ExitAction
  sessions : List Session
  selectedSession : Nat
  state : AppState
  renameSessionTa : Option String
  newSessionTa : Option String
  searchSessionTa : Option String
  searchSessionSelected : Option Nat
  matchingRows : List Nat
deriving DecidableEq

/-- External calls issued to tmux, recorded as a trace. -/
inductive ExtCall where
  | ls
  | newSessionCmd (name : String)
  | renameSession (target : String) (newName : String)
  | killSession (target : String)
deriving DecidableEq

/-- Environment supplying the outcome of the external tmux calls made while
handling one key event: the stdout of `tmux ls` (`Option.none` models a
non-UTF8 byte sequence) and the exit status / stderr of the at most one
mutating call of the event. -/
structure Env where
  lsStdout : Option String
  mutSuccess : Bool
  mutStderr : String
deriving DecidableEq

/-- Translation of Rust `Iterator::position`: index of the first element
satisfying the predicate. -/
def position (p : α → Bool) : List α → Option Nat
  | [] => Option.none
  | x :: xs => if p x then some 0 else (position p xs).map (· + 1)

/-- Translation of Rust `str::split(":")` at the character level: split at
every colon, keeping empty fields; the result is never empty. -/
def splitColon : List Char → List (List Char)
  | [] => [[]]
  | c :: rest =>
    if c = ':' then [] :: splitColon rest
    else
      match splitColon rest with
      | [] => [[c]]
      | h :: t => (c :: h) :: t

/-- Translation of Rust `Vec::join(" ")` on character lists. -/
def joinSpace : List (List Char) → List Char
  | [] => []
  | [x] => x
  | x :: y :: xs => x ++ ' ' :: joinSpace (y :: xs)

/-- Drop one trailing carriage return, as Rust `str::lines` does. -/
def dropTrailingCR (l : List Char) : List Char :=
  if l.getLast? = some '\r' then l.dropLast else l

/-- Split at every newline (helper for `rustLines`). -/
def splitNL : List Char → List (List Char)
  | [] => [[]]
  | c :: rest =>
    if c = '\n' then [] :: splitNL rest
    else
      match splitNL rest with
      | [] => [[c]]
      | h :: t => (c :: h) :: t

/-- Translation of Rust `str::lines`: split at newlines, drop an optional
final empty line, strip a trailing carriage return from each line. -/
def rustLines (s : String) : List String :=
  let ps := splitNL s.toList
  let ps := if ps.getLast? = some [] then ps.dropLast else ps
  ps.map (fun l => String.mk (dropTrailingCR l))

/-- One iteration of the parsing closure in `App::refresh` (src/app.rs):
`line.split(":")`, the first part is the name, the remaining parts joined
with a single space are the description.  `parts.next()` always yields a
value, so the closure never filters a line out. -/
def parseLine (line : String) : Option Session :=
  match splitColon line.toList with
  | [] => Option.none
  | name :: rest => some ⟨String.mk name, String.mk (joinSpace rest)⟩

/-- The full snapshot parse of `App::refresh`. -/
def parseSessions (out : String) : List Session :=
  (rustLines out).filterMap parseLine

/-- `App::refresh` (src/app.rs) minus the process invocation: `stdout` is
the raw `tmux ls` output, `Option.none` modelling a non-UTF8 result (the
early `return`).  The final clamp is the source's
`selected_session.max(0).min(sessions.len() - 1)`; the `len() - 1` is the
usize subtraction `wSub1` (debug builds abort on an empty list). -/
def refreshPure (app : App) (stdout : Option String) : App :=
  match stdout with
  | Option.none => app
  | some out =>
    let selectedName := (app.sessions.get? app.selectedSession).map Session.name
    let sessions := parseSessions out
    let sel1 :=
      match selectedName with
      | some nm =>
        match position (fun s => s.name == nm) sessions with
        | some idx => idx
        | Option.none => app.selectedSession
      | Option.none => app.selectedSession
    { app with
      sessions := sessions,
      selectedSession := min (max sel1 0) (wSub1 sessions.length) }

/-- `App::refresh` with its external-call trace. -/
def refreshE (env : Env) (app : App) : App × List ExtCall :=
  (refreshPure app env.lsStdout, [ExtCall.ls])

/-- `App::dismiss_all` (src/app.rs).  Note that `new_session_ta` is not
cleared by the source. -/
def dismissAll (app : App) : App :=
  { app with
    renameSessionTa := Option.none,
    searchSessionTa := Option.none,
    state := AppState.Sessions }

/-- `App::quit` (src/app.rs). -/
def quitApp (app : App) : App := { app with running := false }

/-- `App::confirm_delete` (src/app.rs). -/
def confirmDelete (app : App) : App := { app with state := AppState.Deleting }

/-- `App::confirm_rename` (src/app.rs): allocate an empty rename text area. -/
def confirmRename (app : App) : App :=
  { app with renameSessionTa := some "", state := AppState.Renaming }

/-- `App::search` (src/app.rs): allocate an empty search text area. -/
def searchStart (app : App) : App :=
  { app with searchSessionTa := some "", state := AppState.SessionsSearch }

/-- `App::confirm_new_session` (src/app.rs). -/
def confirmNewSession (app : App) : App :=
  { app with newSessionTa := some "", state := AppState.NewSession }

/-- `App::rename` (src/app.rs): panic if no session is selected; panic with
the external stderr if the rename command reports non-success; otherwise
refresh and dismiss. -/
def renameE (env : Env) (app : App) (txt : String) :
    Except String (App × List ExtCall) :=
  match app.sessions.get? app.selectedSession with
  | Option.none => .error "Could not identify session to delete"
  | some s =>
    if env.mutSuccess then
      .ok (dismissAll (refreshPure app env.lsStdout), [ExtCall.renameSession s.name txt, ExtCall.ls])
    else .error env.mutStderr

/-- `App::delete` (src/app.rs): panic if no session is selected; the exit
status of the kill command is never inspected (only the spawn is checked,
see the TODO in the source), so the flow continues to refresh and dismiss
regardless of `env.mutSuccess`. -/
def deleteE (env : Env) (app : App) : Except String (App × List ExtCall) :=
  match app.sessions.get? app.selectedSession with
  | Option.none => .error "Could not identify session to delete"
  | some s =>
    .ok (dismissAll (refreshPure app env.lsStdout), [ExtCall.killSession s.name, ExtCall.ls])

/-- `App::new_session` (src/app.rs).  For a named create: panic with stderr
on non-success; otherwise capture the old name set, refresh, compute the
set difference of new names against old names and move the selection to the
`next()` element of the difference when there is one.  The source's
`HashSet::difference` iterates in an arbitrary order; it is modelled here
as the list of new names in snapshot order, `next()` being its head.  For
the unnamed create: exit the loop with the `NewSession` outcome. -/
def newSessionE (env : Env) (app : App) (name : Option String) :
    Except String (App × List ExtCall) :=
  match name with
  | some n =>
    if env.mutSuccess then
      let oldNames := app.sessions.map Session.name
      let a1 := refreshPure app env.lsStdout
      let diff := (a1.sessions.map Session.name).filter
        (fun m => !(oldNames.contains m))
      let a2 :=
        match diff.head? with
        | some nm =>
          match position (fun s => s.name == nm) a1.sessions with
          | some idx => { a1 with selectedSession := idx }
          | Option.none => a1
        | Option.none => a1
      .ok (dismissAll a2, [ExtCall.newSessionCmd n, ExtCall.ls])
    else .error env.mutStderr
  | Option.none =>
    .ok ({ app with running := false, onExit := ExitAction.newSession }, [])

/-- Key codes relevant to src/handler.rs. -/
inductive KeyCode where
  | char (c : Char)
  | enter
  | esc
  | up
  | down
  | other
deriving DecidableEq

/-- A crossterm key event: code plus modifier flags. -/
structure KeyEvent where
  code : KeyCode
  ctrl : Bool
  alt : Bool
  shift : Bool
deriving DecidableEq

/-- The source's `key_event.modifiers == KeyModifiers::CONTROL`: control is
the only modifier held. -/
def ctrlOnly (ev : KeyEvent) : Bool := ev.ctrl && !ev.alt && !ev.shift

/-- Modelled from the spec: the external line-editing widget (tui_textarea)
is consumed as an opaque buffer; a plain printable key is inserted as
literal text (at the end in this single-cursor model), everything else
leaves the content unchanged. -/
def taInput (buf : String) (ev : KeyEvent) : String :=
  match ev.code with
  | KeyCode.char c => if ev.ctrl || ev.alt then buf else buf.push c
  | _ => buf

/-- The global-quit section of `handle_key_events` (src/handler.rs): `q`
always quits; `c` or `C` quits only when control is the sole modifier. -/
def globalQuitKey (ev : KeyEvent) : Bool :=
  match ev.code with
  | KeyCode.char 'q' => true
  | KeyCode.char 'c' => ctrlOnly ev
  | KeyCode.char 'C' => ctrlOnly ev
  | _ => false

/-- The `AppState::Sessions` arm of `handle_key_events` (src/handler.rs).
`checked_sub(1).unwrap_or(0)` is Nat subtraction; the move-down and
jump-to-end arms compute `sessions.len() - 1` as usize, which wraps on an
empty list (debug builds abort).  The `N` arm's `app.new_session()` call is
written without the argument the method takes in src/app.rs; it is modelled
as the unnamed-create path its comment describes. -/
def sessionsDispatch (env : Env) (ev : KeyEvent) (app : App) :
    Except String (App × List ExtCall) :=
  match ev.code with
  | KeyCode.char 'k' =>
    .ok ({ app with selectedSession := app.selectedSession - 1 }, [])
  | KeyCode.up =>
    .ok ({ app with selectedSession := app.selectedSession - 1 }, [])
  | KeyCode.char 'p' =>
    if ctrlOnly ev then
      .ok ({ app with selectedSession := app.selectedSession - 1 }, [])
    else .ok (app, [])
  | KeyCode.char 'j' =>
    let ns := min (wAdd1 app.selectedSession) (wSub1 app.sessions.length)
    .ok ({ app with selectedSession := ns }, [])
  | KeyCode.down =>
    let ns := min (wAdd1 app.selectedSession) (wSub1 app.sessions.length)
    .ok ({ app with selectedSession := ns }, [])
  | KeyCode.char 'n' =>
    if ctrlOnly ev then
      let ns := min (wAdd1 app.selectedSession) (wSub1 app.sessions.length)
      .ok ({ app with selectedSession := ns }, [])
    else .ok (app, [])
  | KeyCode.enter =>
    match app.sessions.get? app.selectedSession with
    | some s =>
      .ok ({ app with running := false, onExit := ExitAction.attachSession s.name true }, [])
    | Option.none => .error "index out of bounds"
  | KeyCode.char 'a' =>
    match app.sessions.get? app.selectedSession with
    | some s =>
      .ok ({ app with running := false, onExit := ExitAction.attachSession s.name true }, [])
    | Option.none => .error "index out of bounds"
  | KeyCode.char 'g' => .ok ({ app with selectedSession := 0 }, [])
  | KeyCode.char 'G' =>
    .ok ({ app with selectedSession := wSub1 app.sessions.length }, [])
  | KeyCode.char 'x' => .ok (confirmDelete app, [])
  | KeyCode.char 'N' => newSessionE env app Option.none
  | KeyCode.char 'r' => .ok (confirmRename app, [])
  | KeyCode.char '/' => .ok (searchStart app, [])
  | _ => .ok (app, [])

/-- Default arm of the `SessionsSearch` state: forward the input to the
search text area when it exists. -/
def searchTaInput (ev : KeyEvent) (app : App) :
    Except String (App × List ExtCall) :=
  match app.searchSessionTa with
  | some buf =>
    .ok ({ app with searchSessionTa := some (taInput buf ev) }, [])
  | Option.none => .ok (app, [])

/-- The `AppState::SessionsSearch` arm of `handle_key_events`
(src/handler.rs).  The ctrl-n arm's `matching_rows.len() - 1` is usize
subtraction, and `matching_rows[new_idx]` panics when out of bounds. -/
def searchDispatch (ev : KeyEvent) (app : App) :
    Except String (App × List ExtCall) :=
  match ev.code with
  | KeyCode.enter =>
    let app1 :=
      match app.searchSessionSelected with
      | some r => { app with selectedSession := r }
      | Option.none => app
    .ok (dismissAll app1, [])
  | KeyCode.esc =>
    .ok (dismissAll { app with searchSessionSelected := Option.none }, [])
  | KeyCode.char 'p' =>
    if ev.ctrl then
      match app.searchSessionSelected with
      | some selRow =>
        match position (fun r => r == selRow) app.matchingRows with
        | some cur =>
          match app.matchingRows.get? (cur - 1) with
          | some v => .ok ({ app with searchSessionSelected := some v }, [])
          | Option.none => .error "index out of bounds"
        | Option.none => .ok (app, [])
      | Option.none => .ok (app, [])
    else searchTaInput ev app
  | KeyCode.char 'n' =>
    if ev.ctrl then
      match app.searchSessionSelected with
      | some selRow =>
        match position (fun r => r == selRow) app.matchingRows with
        | some cur =>
          let ni := min (wAdd1 cur) (wSub1 app.matchingRows.length)
          match app.matchingRows.get? ni with
          | some v => .ok ({ app with searchSessionSelected := some v }, [])
          | Option.none => .error "index out of bounds"
        | Option.none => .ok (app, [])
      | Option.none => .ok (app, [])
    else searchTaInput ev app
  | _ => searchTaInput ev app

/-- The `AppState::Deleting` arm of `handle_key_events` (src/handler.rs). -/
def deletingDispatch (env : Env) (ev : KeyEvent) (app : App) :
    Except String (App × List ExtCall) :=
  match ev.code with
  | KeyCode.char 'y' => deleteE env app
  | KeyCode.char 'n' => .ok (dismissAll app, [])
  | KeyCode.esc => .ok (dismissAll app, [])
  | _ => .ok (app, [])

/-- The `AppState::Renaming` arm of `handle_key_events` (src/handler.rs).
The source reads and edits `app.new_session_ta` here (not
`rename_session_ta`): Enter commits a rename only when the CreateNew text
area exists, and other keys are forwarded to that same CreateNew area. -/
def renamingDispatch (env : Env) (ev : KeyEvent) (app : App) :
    Except String (App × List ExtCall) :=
  match ev.code with
  | KeyCode.enter =>
    match app.newSessionTa with
    | some buf => renameE env app buf
    | Option.none => .ok (app, [])
  | KeyCode.esc => .ok (dismissAll app, [])
  | _ =>
    match app.newSessionTa with
    | some buf =>
      .ok ({ app with newSessionTa := some (taInput buf ev) }, [])
    | Option.none => .ok (app, [])

/-- The state dispatch of `handle_key_events` (src/handler.rs).  The source
match has no arm for `AppState::NewSession` (the handler file predates that
state and does not compile against the current `AppState`); it is modelled
as a no-op. -/
def stateDispatch (env : Env) (ev : KeyEvent) (app : App) :
    Except String (App × List ExtCall) :=
  match app.state with
  | AppState.Sessions => sessionsDispatch env ev app
  | AppState.SessionsSearch => searchDispatch ev app
  | AppState.Deleting => deletingDispatch env ev app
  | AppState.Renaming => renamingDispatch env ev app
  | AppState.WarnNested => .ok (dismissAll app, [])
  | AppState.NewSession => .ok (app, [])

/-- `handle_key_events` (src/handler.rs): unless the state is `Renaming` or
`SessionsSearch`, the global quit keys are checked first and quit
immediately; otherwise the event goes to the per-state dispatch. -/
def handleKeyEvents (env : Env) (ev : KeyEvent) (app : App) :
    Except String (App × List ExtCall) :=
  if app.state = AppState.Renaming ∨ app.state = AppState.SessionsSearch then
    stateDispatch env ev app
  else if globalQuitKey ev then .ok (quitApp app, [])
  else stateDispatch env ev app

/-- `App::max_session_name_width` (src/app.rs). -/
def maxSessionNameWidth (app : App) : Nat :=
  (app.sessions.map (fun s => s.name.length)).foldl max 0

/-- The row string rendered for one session (src/ui.rs): the name
right-aligned to the given width, a colon, a space, the description. -/
def rowString (width : Nat) (s : Session) : String :=
  String.mk (List.replicate (width - s.name.length) ' ') ++ s.name
    ++ ": " ++ s.desc

/-- Rust `str::match_indices` non-emptiness: the needle occurs somewhere in
the haystack. -/
def occursIn (needle : List Char) : List Char → Bool
  | [] => needle.isEmpty
  | c :: rest => needle.isPrefixOf (c :: rest) || occursIn needle rest

/-- A row is highlighted as a match (src/ui.rs): the needle is non-empty
and occurs in the row as a literal substring. -/
def rowMatches (needle row : String) : Bool :=
  !needle.isEmpty && occursIn needle.toList row.toList

/-- The recomputation of `matching_rows` in `render` (src/ui.rs): indices
of the rows that match, in row order. -/
def computeMatchingRows (needle : String) (rows : List String) : List Nat :=
  rows.enum.filterMap
    (fun p => if rowMatches needle p.snd then some p.fst else Option.none)

/-- The pointer-continuity logic of `render` (src/ui.rs lines 114-135):
keep a still-matching previous pointer, drop it when no row matches, and
fall back to the first matching row otherwise.  `matching_rows[0]` is taken
under the non-empty guard, so it is `head?`. -/
def updateSearchSelected (old : Option Nat) (m : List Nat) : Option Nat :=
  match old with
  | some sel =>
    if m.isEmpty then Option.none
    else if !(m.contains sel) then m.head?
    else some sel
  | Option.none => m.head?

/-- The `SessionsSearch` part of `render` (src/ui.rs) restricted to its
state mutation: recompute `matching_rows` from the rendered rows and the
needle, then rerun the pointer-continuity update.  The source panics
(`expect`) when the search text area is missing in this state. -/
def renderSearchUpdate (app : App) : Except String App :=
  match app.state with
  | AppState.SessionsSearch =>
    match app.searchSessionTa with
    | Option.none => .error "Could not get search term"
    | some needle =>
      let rows := app.sessions.map (rowString (maxSessionNameWidth app))
      let m := computeMatchingRows needle rows
      .ok { app with
            matchingRows := m,
            searchSessionSelected :=
              updateSearchSelected app.searchSessionSelected m }
  | _ => .ok app

/-! Concrete states shared by the witnesses and counterexamples. -/

/-- Freshly constructed application state (before the initial refresh). -/
def app0 : App :=
  { running := true, counter := 0, onExit := ExitAction.none, sessions := [],
    selectedSession := 0, state := AppState.Sessions,
    renameSessionTa := Option.none, newSessionTa := Option.none,
    searchSessionTa := Option.none, searchSessionSelected := Option.none,
    matchingRows := [] }

/-- A state holding the single session `A`. -/
def appA : App := { app0 with sessions := [⟨"A", "x"⟩] }

/-! Helper lemmas about `position`. -/

theorem position_eq_some {α : Type} {p : α → Bool} {l : List α} {i : Nat}
    (h : position p l = some i) :
    ∃ x, l.get? i = some x ∧ p x = true := by
  induction l generalizing i with
  | nil => simp [position] at h
  | cons a t ih =>
    by_cases hp : p a
    · simp [position, hp] at h
      subst h
      exact ⟨a, rfl, hp⟩
    · simp [position, hp] at h
      cases hpos : position p t with
      | none => rw [hpos] at h; simp at h
      | some j =>
        rw [hpos] at h
        simp at h
        obtain ⟨x, hx, hpx⟩ := ih hpos
        subst h
        exact ⟨x, by simpa using hx, hpx⟩

theorem position_lt_length {α : Type} {p : α → Bool} {l : List α} {i : Nat}
    (h : position p l = some i) : i < l.length := by
  obtain ⟨x, hx, _⟩ := position_eq_some h
  exact (List.get?_eq_some.mp hx).1

theorem position_of_mem {α : Type} {p : α → Bool} {l : List α} {x : α}
    (hx : x ∈ l) (hpx : p x = true) : ∃ i, position p l = some i := by
  induction l with
  | nil => cases hx
  | cons a t ih =>
    by_cases hp : p a
    · exact ⟨0, by simp [position, hp]⟩
    · rcases List.mem_cons.mp hx with h | h
      · subst h; exact absurd hpx hp
      · obtain ⟨j, hj⟩ := ih h
        exact ⟨j + 1, by simp [position, hp, hj]⟩

theorem clamp_of_lt {i n : Nat} (h : i < n) :
    min (max i 0) (wSub1 n) = i := by
  have hn : n ≠ 0 := by omega
  simp only [wSub1, if_neg hn]
  omega

/-- Claim C2: after a refresh from a non-empty parsed snapshot, the new
session list is the snapshot; if the previously selected identifier occurs
in the snapshot it is selected at its (first) new position; otherwise the
selected index is kept numerically and clamped into `[0, new_length - 1]`. -/
theorem claim2_selection_preservation (app : App) (out : String)
    (hne : parseSessions out ≠ []) :
    ((refreshPure app (some out)).sessions = parseSessions out) ∧
    (∀ nm i,
      (app.sessions.get? app.selectedSession).map Session.name = some nm →
      position (fun s => s.name == nm) (parseSessions out) = some i →
      (refreshPure app (some out)).selectedSession = i ∧
        ((parseSessions out).get? i).map Session.name = some nm) ∧
    ((∀ nm,
      (app.sessions.get? app.selectedSession).map Session.name = some nm →
      position (fun s => s.name == nm) (parseSessions out) = Option.none) →
      (refreshPure app (some out)).selectedSession =
        min app.selectedSession ((parseSessions out).length - 1)) := by
  have hlen : (parseSessions out).length ≠ 0 := by
    intro h
    exact hne (List.eq_nil_of_length_eq_zero h)
  refine ⟨by simp [refreshPure], ?_, ?_⟩
  · intro nm i hsel hpos
    have hlt : i < (parseSessions out).length := position_lt_length hpos
    constructor
    · simp only [refreshPure]
      rw [hsel]
      dsimp only
      rw [hpos]
      dsimp only
      exact clamp_of_lt hlt
    · obtain ⟨x, hx, hpx⟩ := position_eq_some hpos
      rw [hx]
      simpa using eq_of_beq hpx
  · intro hnone
    cases hsn : (app.sessions.get? app.selectedSession).map Session.name with
    | none =>
      simp only [refreshPure, hsn]
      simp only [wSub1, if_neg hlen]
      omega
    | some nm =>
      have hp := hnone nm hsn
      simp only [refreshPure, hsn, hp]
      simp only [wSub1, if_neg hlen]
      omega

/-- A two-session state with the second session selected. -/
def appW2 : App := { app0 with sessions := [⟨"A", "a"⟩, ⟨"B", "b"⟩], selectedSession := 1 }

/-- Witness for C2 at a concrete state: selected identifier `B` moves from
index 1 to its new position 0. -/
theorem claim2_witness :
    parseSessions "B:y\nC:x" ≠ [] ∧
    ((refreshPure appW2 (some "B:y\nC:x")).selectedSession = 0 ∧
      ((parseSessions "B:y\nC:x").get? 0).map Session.name = some "B") :=
  ⟨by decide,
    (claim2_selection_preservation appW2
      "B:y\nC:x" (by decide)).2.1 "B" 0 (by decide) (by decide)⟩

/-- Counterexample to claim C7 as stated: an empty (but valid UTF8) store
result does not leave the registry unchanged — the session list is replaced
by the empty list. -/
theorem claim7_counterexample :
    (refreshPure appA (some "")).sessions = [] ∧ appA.sessions ≠ [] := by
  exact ⟨rfl, by decide⟩

/-- Claim C7 as amended: a non-UTF8 result is a full no-op, but an empty
result runs the reconciliation on zero lines: the session list becomes
empty while the selected index is retained numerically (release-profile
wrap semantics of the final clamp; a debug build aborts there). -/
theorem clamp_zero {s : Nat} (h : s < U64) :
    min (max s 0) (wSub1 0) = s := by
  rw [show wSub1 0 = U64 - 1 from rfl, Nat.max_zero]
  exact Nat.min_eq_left (by omega)

theorem claim7_amended (app : App) :
    refreshPure app Option.none = app ∧
    (refreshPure app (some "")).sessions = [] ∧
    (app.selectedSession < U64 →
      (refreshPure app (some "")).selectedSession = app.selectedSession) := by
  refine ⟨rfl, rfl, ?_⟩
  intro h
  cases hget : app.sessions.get? app.selectedSession with
  | none =>
    simp only [refreshPure, hget, Option.map, show parseSessions "" = [] from rfl]
    exact clamp_zero h
  | some s =>
    simp only [refreshPure, hget, Option.map, show parseSessions "" = [] from rfl,
      position]
    exact clamp_zero h

/-- Witness for the amended C7 at a concrete one-session state. -/
theorem claim7_witness :
    refreshPure appA Option.none = appA ∧
    (refreshPure appA (some "")).sessions = [] ∧
    (refreshPure appA (some "")).selectedSession = appA.selectedSession :=
  ⟨(claim7_amended appA).1, (claim7_amended appA).2.1,
    (claim7_amended appA).2.2 (by decide)⟩

/-! Helper lemmas about `splitColon` and `joinSpace` for C8. -/

theorem splitColon_ne_nil (l : List Char) : splitColon l ≠ [] := by
  cases l with
  | nil => simp [splitColon]
  | cons c rest =>
    by_cases hc : c = ':'
    · simp [splitColon, hc]
    · cases hs : splitColon rest <;> simp [splitColon, hc, hs]

theorem splitColon_append (pre post : List Char) (hpre : ':' ∉ pre) :
    splitColon (pre ++ ':' :: post) = pre :: splitColon post := by
  induction pre with
  | nil => simp [splitColon]
  | cons c p ih =>
    have hc : ¬(c = ':') := fun h => hpre (by rw [h]; exact List.mem_cons_self ':' p)
    have hp : ':' ∉ p := fun h => hpre (List.mem_cons_of_mem c h)
    simp [splitColon, hc, ih hp]

theorem joinSpace_cons_cons (c : Char) (h : List Char) (t : List (List Char)) :
    joinSpace ((c :: h) :: t) = c :: joinSpace (h :: t) := by
  cases t <;> simp [joinSpace]

theorem joinSpace_splitColon (post : List Char) :
    joinSpace (splitColon post) =
      post.map (fun c => if c = ':' then ' ' else c) := by
  induction post with
  | nil => simp [splitColon, joinSpace]
  | cons c rest ih =>
    by_cases hc : c = ':'
    · subst hc
      cases hs : splitColon rest with
      | nil => exact absurd hs (splitColon_ne_nil rest)
      | cons h t =>
        rw [hs] at ih
        simp [splitColon, hs, joinSpace, ih]
    · cases hs : splitColon rest with
      | nil => exact absurd hs (splitColon_ne_nil rest)
      | cons h t =>
        rw [hs] at ih
        simp [splitColon, hc, hs, joinSpace_cons_cons, ih]

/-- Counterexample to claim C8 as stated: the line `a:b:c` parses to the
description `b c`, not `b:c` — the inner colon is not preserved. -/
theorem claim8_counterexample :
    parseLine "a:b:c" = some ⟨"a", "b c"⟩ ∧
    parseLine "a:b:c" ≠ some ⟨"a", "b:c"⟩ := by
  exact ⟨by decide, by decide⟩

/-- Claim C8 as amended: a line splits at the first separator into
identifier and remainder, and the description is the remainder with every
inner colon replaced by a single space. -/
theorem claim8_amended (pre post : List Char) (hpre : ':' ∉ pre) :
    parseLine (String.mk (pre ++ ':' :: post)) =
      some ⟨String.mk pre,
            String.mk (post.map (fun c => if c = ':' then ' ' else c))⟩ := by
  unfold parseLine
  rw [show (String.mk (pre ++ ':' :: post)).toList = pre ++ ':' :: post from rfl]
  rw [splitColon_append pre post hpre]
  rw [show (match pre :: splitColon post with
    | [] => (Option.none : Option Session)
    | name :: rest => some ⟨String.mk name, String.mk (joinSpace rest)⟩) =
    some ⟨String.mk pre, String.mk (joinSpace (splitColon post))⟩ from rfl]
  rw [joinSpace_splitColon post]

/-- Witness for the amended C8 at the concrete line `a:b:c`. -/
theorem claim8_witness :
    parseLine (String.mk (['a'] ++ ':' :: ['b', ':', 'c'])) =
      some ⟨String.mk ['a'],
            String.mk (['b', ':', 'c'].map (fun c => if c = ':' then ' ' else c))⟩ :=
  claim8_amended ['a'] ['b', ':', 'c'] (by decide)

/-! Pointer-continuity lemmas for the search Match Set (C9). -/

/-- The Match Set recomputed by `render` for a given state and needle. -/
def matchSetOf (app : App) (needle : String) : List Nat :=
  computeMatchingRows needle (app.sessions.map (rowString (maxSessionNameWidth app)))

theorem contains_iff_mem {m : List Nat} {x : Nat} :
    m.contains x = true ↔ x ∈ m := List.elem_iff

theorem uss_empty (old : Option Nat) :
    updateSearchSelected old [] = Option.none := by
  cases old <;> rfl

theorem uss_if_shape (sel : Nat) (m : List Nat) :
    updateSearchSelected (some sel) m =
      if m.isEmpty then Option.none
      else if !(m.contains sel) then m.head? else some sel := rfl

theorem uss_keep {sel : Nat} {m : List Nat} (h : sel ∈ m) :
    updateSearchSelected (some sel) m = some sel := by
  have hc : m.contains sel = true := contains_iff_mem.mpr h
  cases m with
  | nil => cases h
  | cons a t =>
    rw [uss_if_shape, hc]
    rfl

theorem uss_first {old : Option Nat} {m : List Nat} (hne : m ≠ [])
    (h : ∀ sel, old = some sel → sel ∉ m) :
    updateSearchSelected old m = m.head? := by
  cases old with
  | none => rfl
  | some sel =>
    have hc : m.contains sel = false := by
      cases hcc : m.contains sel
      · rfl
      · exact absurd (contains_iff_mem.mp hcc) (h sel rfl)
    cases m with
    | nil => exact absurd rfl hne
    | cons a t =>
      rw [uss_if_shape, hc]
      rfl

theorem uss_mem {old : Option Nat} {m : List Nat} {x : Nat}
    (h : updateSearchSelected old m = some x) : x ∈ m := by
  cases old with
  | none =>
    cases m with
    | nil => exact absurd h (by rw [uss_empty]; exact fun hx => Option.noConfusion hx)
    | cons a t =>
      have h' : some a = some x := by
        rw [← List.head?_cons (a := a) (l := t)]
        exact h
      rw [← Option.some.inj h']
      exact List.mem_cons_self a t
  | some sel =>
    cases m with
    | nil => exact absurd h (by rw [uss_empty]; exact fun hx => Option.noConfusion hx)
    | cons a t =>
      cases hc : (a :: t).contains sel with
      | true =>
        have heq : updateSearchSelected (some sel) (a :: t) = some sel := by
          rw [uss_if_shape, hc]
          rfl
        rw [← Option.some.inj (heq.symm.trans h)]
        exact contains_iff_mem.mp hc
      | false =>
        have heq : updateSearchSelected (some sel) (a :: t) = some a := by
          rw [uss_if_shape, hc]
          rfl
        rw [← Option.some.inj (heq.symm.trans h)]
        exact List.mem_cons_self a t

/-- Claim C9: whenever the Match Set is recomputed by the render pass, a
previously pointed-at row still in the set is kept, the pointer becomes
none exactly when the set is empty, it falls back to the first element of
the new set otherwise, and the pointer (when present) is always a member of
the current Match Set. -/
theorem claim9_pointer_continuity (app : App) (needle : String)
    (hst : app.state = AppState.SessionsSearch)
    (hta : app.searchSessionTa = some needle) :
    renderSearchUpdate app = .ok { app with
      matchingRows := matchSetOf app needle,
      searchSessionSelected :=
        updateSearchSelected app.searchSessionSelected (matchSetOf app needle) } ∧
    (∀ sel, app.searchSessionSelected = some sel → sel ∈ matchSetOf app needle →
      updateSearchSelected app.searchSessionSelected (matchSetOf app needle) = some sel) ∧
    (matchSetOf app needle = [] →
      updateSearchSelected app.searchSessionSelected (matchSetOf app needle) = Option.none) ∧
    (matchSetOf app needle ≠ [] →
      (∀ sel, app.searchSessionSelected = some sel → sel ∉ matchSetOf app needle) →
      updateSearchSelected app.searchSessionSelected (matchSetOf app needle) =
        (matchSetOf app needle).head?) ∧
    (∀ x, updateSearchSelected app.searchSessionSelected (matchSetOf app needle) = some x →
      x ∈ matchSetOf app needle) := by
  refine ⟨?_, ?_, ?_, ?_, ?_⟩
  · unfold renderSearchUpdate
    rw [hst]
    dsimp only
    rw [hta]
    rfl
  · intro sel hs hmem
    rw [hs]
    exact uss_keep hmem
  · intro he
    rw [he]
    exact uss_empty app.searchSessionSelected
  · intro hne hnot
    exact uss_first hne hnot
  · intro x hx
    exact uss_mem hx

/-- A two-session state in search mode with needle `wo`. -/
def appW9 : App := { app0 with sessions := [⟨"work", "1 windows"⟩, ⟨"play", "2 windows"⟩], state := AppState.SessionsSearch, searchSessionTa := some "wo" }

/-- Witness for C9: on rows `work: 1 windows` and `play: 2 windows` with
needle `wo`, the Match Set is `[0]` and the pointer becomes row 0. -/
theorem claim9_witness :
    renderSearchUpdate appW9 =
      .ok { appW9 with matchingRows := [0], searchSessionSelected := some 0 } :=
  (claim9_pointer_continuity appW9 "wo" rfl rfl).1

/-! New-entity discovery after a named create (C1). -/

/-- A state holding the single session `A`, used for the create scenarios. -/
def appC1 : App := { app0 with sessions := [⟨"A", "a"⟩] }

/-- Environment for a create after which the snapshot holds two new names. -/
def envC1 : Env := ⟨some "A:x\nB:y\nC:z", true, ""⟩

/-- Environment for a create after which the snapshot holds one new name. -/
def envW1 : Env := ⟨some "A:x\nD:y", true, ""⟩

/-- Counterexample to claim C1 as stated: with before-set `{A}` and
after-set `{A, B, C}` the difference holds two identifiers, yet the
selection moves (here to index 1) instead of being left unchanged at 0. -/
theorem claim1_counterexample :
    ((refreshPure appC1 (some "A:x\nB:y\nC:z")).sessions.map Session.name).filter
        (fun m => !((appC1.sessions.map Session.name).contains m)) = ["B", "C"] ∧
    appC1.selectedSession = 0 ∧
    (refreshPure appC1 (some "A:x\nB:y\nC:z")).selectedSession = 0 ∧
    newSessionE envC1 appC1 (some "B") =
      .ok ({ appC1 with sessions := [⟨"A", "x"⟩, ⟨"B", "y"⟩, ⟨"C", "z"⟩], selectedSession := 1 }, [ExtCall.newSessionCmd "B", ExtCall.ls]) :=
  ⟨rfl, rfl, rfl, rfl⟩

/-- Claim C1 as amended: after a successful named create, if the set
difference of the refreshed names against the captured before-names is
empty the selection is the post-refresh one, and if it is non-empty the
selection moves to the position of an element of the difference (its
`next()` element — an arbitrary one under the source's hash-set iteration,
modelled as the first in snapshot order); the exactly-one-new case thus
selects the unique new identifier. -/
theorem claim1_amended (env : Env) (app : App) (n : String)
    (hs : env.mutSuccess = true) :
    (((refreshPure app env.lsStdout).sessions.map Session.name).filter
        (fun m => !((app.sessions.map Session.name).contains m)) = [] →
      newSessionE env app (some n) =
        .ok (dismissAll (refreshPure app env.lsStdout), [ExtCall.newSessionCmd n, ExtCall.ls])) ∧
    (∀ d ds, ((refreshPure app env.lsStdout).sessions.map Session.name).filter
        (fun m => !((app.sessions.map Session.name).contains m)) = d :: ds →
      ∃ idx, position (fun s => s.name == d) (refreshPure app env.lsStdout).sessions = some idx ∧
        newSessionE env app (some n) =
          .ok (dismissAll { refreshPure app env.lsStdout with selectedSession := idx }, [ExtCall.newSessionCmd n, ExtCall.ls])) := by
  constructor
  · intro hd
    simp only [newSessionE]
    rw [if_pos hs, hd]
    rfl
  · intro d ds hd
    have hmem : d ∈ (refreshPure app env.lsStdout).sessions.map Session.name :=
      List.mem_of_mem_filter (by rw [hd]; exact List.mem_cons_self d ds)
    obtain ⟨s, hsmem, hsname⟩ := List.mem_map.mp hmem
    obtain ⟨idx, hidx⟩ :=
      @position_of_mem Session (fun s => s.name == d)
        (refreshPure app env.lsStdout).sessions s hsmem
        (by show (s.name == d) = true; rw [hsname]; exact beq_self_eq_true d)
    refine ⟨idx, hidx, ?_⟩
    simp only [newSessionE]
    rw [if_pos hs, hd]
    dsimp only [List.head?]
    rw [hidx]

/-- Witness for the amended C1: a create after which exactly one name `D`
is new moves the selection to its position 1. -/
theorem claim1_witness :
    position (fun s => s.name == "D") (refreshPure appC1 (some "A:x\nD:y")).sessions = some 1 ∧
    newSessionE envW1 appC1 (some "D") =
      .ok ({ appC1 with sessions := [⟨"A", "x"⟩, ⟨"D", "y"⟩], selectedSession := 1 }, [ExtCall.newSessionCmd "D", ExtCall.ls]) := by
  obtain ⟨idx, h1, h2⟩ := (claim1_amended envW1 appC1 "D" rfl).2 "D" [] rfl
  have h3 : position (fun s => s.name == "D") (refreshPure appC1 envW1.lsStdout).sessions = some 1 := rfl
  have hidx : idx = 1 := (Option.some.inj (h3.symm.trans h1)).symm
  subst hidx
  exact ⟨h1, h2⟩

/-! Handler-level theorems (C3, C4, C5, C6, C10). -/

/-- Environment whose store query yields a non-UTF8 result and whose
mutations succeed; used where the external calls are irrelevant. -/
def envN : Env := ⟨Option.none, true, ""⟩

/-- Claim C3, evaluated at its failing input: on an empty session list the
move-down key sets the selected index to 1 and the jump-to-end key sets it
to `2 ^ 64 - 1` (release wrap semantics of the `len() - 1` underflow; a
debug build aborts instead) — neither is a no-op; move-up does stay at 0. -/
theorem claim3_underflow_eval :
    app0.sessions = [] ∧ app0.selectedSession = 0 ∧
    handleKeyEvents envN ⟨KeyCode.char 'j', false, false, false⟩ app0 =
      .ok ({ app0 with selectedSession := 1 }, []) ∧
    handleKeyEvents envN ⟨KeyCode.char 'G', false, false, false⟩ app0 =
      .ok ({ app0 with selectedSession := U64 - 1 }, []) ∧
    handleKeyEvents envN ⟨KeyCode.char 'k', false, false, false⟩ app0 =
      .ok (app0, []) :=
  ⟨rfl, rfl, rfl, rfl, rfl⟩

/-- A state in the rename prompt produced by the normal flow: the rename
text area holds the typed text, the CreateNew text area does not exist. -/
def appR4 : App := { app0 with sessions := [⟨"A", "a"⟩, ⟨"B", "b"⟩], state := AppState.Renaming, renameSessionTa := some "newname" }

/-- Claim C4, evaluated at its failing input: committing Enter in the
Renaming mode with a non-empty rename buffer invokes nothing — the handler
reads the absent CreateNew buffer, so no external call is made, the mode is
not left and the buffers are untouched. -/
theorem claim4_dead_rename_eval :
    appR4.state = AppState.Renaming ∧
    appR4.renameSessionTa = some "newname" ∧
    appR4.newSessionTa = Option.none ∧
    handleKeyEvents envN ⟨KeyCode.enter, false, false, false⟩ appR4 =
      .ok (appR4, []) :=
  ⟨rfl, rfl, rfl, rfl⟩

/-- A state in the CreateNew prompt with text already typed. -/
def appNS : App := { app0 with sessions := [⟨"A", "a"⟩], state := AppState.NewSession, newSessionTa := some "my" }

/-- Counterexample to claim C5 as stated: in the Entering(CreateNew) mode
(`NewSession`) the plain `q` key is not delivered to the buffer — it
terminates the loop. -/
theorem claim5_counterexample :
    appNS.state = AppState.NewSession ∧
    handleKeyEvents envN ⟨KeyCode.char 'q', false, false, false⟩ appNS =
      .ok ({ appNS with running := false }, []) :=
  ⟨rfl, rfl⟩

/-- Claim C5 as amended: the global quit key is recognized in every mode
except `Renaming` and `SessionsSearch` (in particular it stays active in
`NewSession`); in `SessionsSearch` the key is delivered as literal text to
the search buffer, and in `Renaming` it is routed to the (normally absent)
CreateNew buffer and dropped; in both modes the loop is not terminated. -/
theorem claim5_amended (env : Env) (app : App) :
    ((app.state ≠ AppState.Renaming ∧ app.state ≠ AppState.SessionsSearch) →
      handleKeyEvents env ⟨KeyCode.char 'q', false, false, false⟩ app =
        .ok ({ app with running := false }, [])) ∧
    (∀ buf, app.state = AppState.SessionsSearch → app.searchSessionTa = some buf →
      handleKeyEvents env ⟨KeyCode.char 'q', false, false, false⟩ app =
        .ok ({ app with searchSessionTa := some (buf.push 'q') }, [])) ∧
    (app.state = AppState.Renaming → app.newSessionTa = Option.none →
      handleKeyEvents env ⟨KeyCode.char 'q', false, false, false⟩ app =
        .ok (app, [])) := by
  obtain ⟨r, cnt, oe, ss, sel, st, rta, nta, sta, sss, mr⟩ := app
  refine ⟨?_, ?_, ?_⟩
  · rintro ⟨h1, h2⟩
    dsimp only at h1 h2
    cases st <;> first | exact absurd rfl h1 | exact absurd rfl h2 | rfl
  · intro buf hst hta
    dsimp only at hst hta
    subst hst
    subst hta
    rfl
  · intro hst hnta
    dsimp only at hst hnta
    subst hst
    subst hnta
    rfl

/-- A state in the delete-confirmation popup. -/
def appD5 : App := { app0 with state := AppState.Deleting }

/-- A state in the search prompt with text already typed. -/
def appS5 : App := { app0 with state := AppState.SessionsSearch, searchSessionTa := some "na" }

/-- A state in the rename prompt with text already typed. -/
def appR5 : App := { app0 with state := AppState.Renaming, renameSessionTa := some "x" }

/-- Witness for the amended C5 at three concrete states. -/
theorem claim5_witness :
    handleKeyEvents envN ⟨KeyCode.char 'q', false, false, false⟩ appD5 =
      .ok ({ appD5 with running := false }, []) ∧
    handleKeyEvents envN ⟨KeyCode.char 'q', false, false, false⟩ appS5 =
      .ok ({ appS5 with searchSessionTa := some ("na".push 'q') }, []) ∧
    handleKeyEvents envN ⟨KeyCode.char 'q', false, false, false⟩ appR5 =
      .ok (appR5, []) :=
  ⟨(claim5_amended envN appD5).1 ⟨by decide, by decide⟩,
   (claim5_amended envN appS5).2.1 "na" rfl rfl,
   (claim5_amended envN appR5).2.2 rfl rfl⟩

/-- Environment in which the single mutating call of the event fails. -/
def envF : Env := ⟨some "A:x", false, "kill failed"⟩

/-- A one-session state in the delete-confirmation popup. -/
def appD6 : App := { app0 with sessions := [⟨"A", "a"⟩], state := AppState.Deleting }

/-- Counterexample to claim C6 as stated: a delete whose external call
reports non-success does not terminate anything — the flow refreshes,
dismisses the popup and keeps running. -/
theorem claim6_counterexample :
    envF.mutSuccess = false ∧
    deleteE envF appD6 =
      .ok ({ appD6 with sessions := [⟨"A", "x"⟩], state := AppState.Sessions }, [ExtCall.killSession "A", ExtCall.ls]) ∧
    ({ appD6 with sessions := [⟨"A", "x"⟩], state := AppState.Sessions } : App).running = true :=
  ⟨rfl, rfl, rfl⟩

/-- Claim C6 as amended: a failing create or rename is fatal, surfacing the
external stderr; a failing delete is silently ignored — the delete flow
does not depend on the exit status or stderr of the kill command at all. -/
theorem claim6_amended (env : Env) (app : App) :
    (∀ s txt, app.sessions.get? app.selectedSession = some s →
      env.mutSuccess = false → renameE env app txt = .error env.mutStderr) ∧
    (∀ n, env.mutSuccess = false →
      newSessionE env app (some n) = .error env.mutStderr) ∧
    (∀ b stderrTxt, deleteE ⟨env.lsStdout, b, stderrTxt⟩ app = deleteE env app) := by
  refine ⟨?_, ?_, ?_⟩
  · intro s txt hget hf
    unfold renameE
    rw [hget]
    dsimp only
    rw [hf]
    rfl
  · intro n hf
    unfold newSessionE
    dsimp only
    rw [hf]
    rfl
  · intro b stderrTxt
    rfl

/-- Witness for the amended C6: failing rename and create are fatal with
the external stderr surfaced; the delete flow ignores the status. -/
theorem claim6_witness :
    renameE envF appD6 "z" = .error "kill failed" ∧
    newSessionE envF appD6 (some "z") = .error "kill failed" ∧
    deleteE ⟨envF.lsStdout, true, ""⟩ appD6 = deleteE envF appD6 :=
  ⟨(claim6_amended envF appD6).1 ⟨"A", "a"⟩ "z" rfl rfl,
   (claim6_amended envF appD6).2.1 "z" rfl,
   (claim6_amended envF appD6).2.2 true ""⟩

/-- Claim C10: handling a global quit key (plain `q`, or ctrl-`c`/`C`) in a
mode where the global quit is active only flips the running flag — the
session list, selection, mode, all text areas, match rows and exit outcome
are unchanged, and no external call is made. -/
theorem claim10_quit_frame (env : Env) (app : App) (ev : KeyEvent)
    (h1 : app.state ≠ AppState.Renaming)
    (h2 : app.state ≠ AppState.SessionsSearch)
    (hk : ev.code = KeyCode.char 'q' ∨
      ((ev.code = KeyCode.char 'c' ∨ ev.code = KeyCode.char 'C') ∧
        ctrlOnly ev = true)) :
    handleKeyEvents env ev app = .ok ({ app with running := false }, []) := by
  have hq : globalQuitKey ev = true := by
    rcases hk with h | ⟨h | h, hc⟩
    · unfold globalQuitKey
      rw [h]
      rfl
    · unfold globalQuitKey
      rw [h]
      exact hc
    · unfold globalQuitKey
      rw [h]
      exact hc
  unfold handleKeyEvents
  rw [if_neg (fun h => h.elim h1 h2), if_pos hq]
  rfl

/-- Witness for C10: ctrl-`c` on a browsing one-session state flips only
the running flag. -/
theorem claim10_witness :
    handleKeyEvents envN ⟨KeyCode.char 'c', true, false, false⟩ appA =
      .ok ({ appA with running := false }, []) :=
  claim10_quit_frame envN appA ⟨KeyCode.char 'c', true, false, false⟩
    (by decide) (by decide) (Or.inr ⟨Or.inl rfl, rfl⟩)

end Tmm
